/-
  Verification development for the CRM GraphQL backend.

  Shallow embedding of the mutation and query logic of `crm/schema.py`
  and the data model of `crm/models.py`.  Pure Python functions become
  Lean functions; the database becomes an explicit `DB` state threaded
  through each mutation; `Decimal` values become rationals; fallible
  GraphQL-level behaviour (`raise GraphQLError`) becomes `Except`.
  Timestamps (`created_at`, `updated_at`, `order_date`) are omitted
  throughout: no property in scope concerns them.
-/
import Mathlib

namespace CRM

/-- Python `str.strip()` (whitespace removal at both ends), modelled on the
character list of the string.  `Char.isWhitespace` covers space, tab,
carriage return and newline, the whitespace characters occurring in scope. -/
def pyStrip (s : String) : String :=
  ⟨((s.data.dropWhile Char.isWhitespace).reverse.dropWhile Char.isWhitespace).reverse⟩

/-- Python `str.lower()`, modelled characterwise (ASCII case folding, which
agrees with Python on the ASCII range used by every string in scope). -/
def pyLower (s : String) : String :=
  ⟨s.data.map Char.toLower⟩

/-! ### The phone regex `PHONE_REGEX = re.compile(r"^(?:\+\d{7,15}|\d{3}-\d{3}-\d{4})$")`

`PHONE_REGEX.match` anchors at the start; the final `$` matches at the end
of the string or just before a single newline that ends the string (Python
`re` semantics for `$`).  `\d` is modelled as an ASCII digit. -/

/-- Python `$` in `re.match` position: end of input, or a lone final newline. -/
def reEnd (cs : List Char) : Bool :=
  cs.isEmpty || cs == ['\n']

/-- The alternative `\+\d{7,15}$`: a plus sign, then a maximal digit run of
length 7 to 15, then `$`.  (A shorter, backtracked digit count would leave a
digit before `$`, which can never match, so the maximal run is exact.) -/
def rePlusBranch (cs : List Char) : Bool :=
  match cs with
  | [] => false
  | c :: rest =>
      if c = '+' then
        decide (7 ≤ (rest.takeWhile Char.isDigit).length)
          && decide ((rest.takeWhile Char.isDigit).length ≤ 15)
          && reEnd (rest.dropWhile Char.isDigit)
      else false

/-- The alternative `\d{3}-\d{3}-\d{4}$`: exactly `###-###-####` then `$`. -/
def reDashBranch (cs : List Char) : Bool :=
  match cs with
  | a :: b :: c :: k1 :: d :: e :: f :: k2 :: g :: h :: i :: j :: tail =>
      ([a, b, c, d, e, f, g, h, i, j].all Char.isDigit)
        && decide (k1 = '-') && decide (k2 = '-') && reEnd tail
  | _ => false

/-- `PHONE_REGEX.match(s)` succeeding, as a Boolean. -/
def phoneRegexMatch (s : String) : Bool :=
  rePlusBranch s.data || reDashBranch s.data

/-- The spec's first phone alternative, written from the spec's words:
`+` followed by 7 to 15 digits, covering the whole string. -/
def claimPlus (cs : List Char) : Bool :=
  match cs with
  | [] => false
  | c :: ds =>
      if c = '+' then
        ds.all Char.isDigit && decide (7 ≤ ds.length) && decide (ds.length ≤ 15)
      else false

/-- The spec's second phone alternative, written from the spec's words:
exactly `###-###-####` and nothing more. -/
def claimDash (cs : List Char) : Bool :=
  match cs with
  | a :: b :: c :: k1 :: d :: e :: f :: k2 :: g :: h :: i :: j :: tail =>
      ([a, b, c, d, e, f, g, h, i, j].all Char.isDigit)
        && decide (k1 = '-') && decide (k2 = '-') && tail.isEmpty
  | _ => false

/-- The spec's phone pattern: either alternative. -/
def claimPhoneCore (cs : List Char) : Bool :=
  claimPlus cs || claimDash cs

/-- Spec-side phone pattern on strings. -/
def claimPhonePattern (s : String) : Bool :=
  claimPhoneCore s.data

/-- `_validate_phone` as a Boolean: `True` when no `ValidationError` is
raised.  The source skips the regex when the phone is `None` or the empty
string (both falsy). -/
def validatePhone (phone : Option String) : Bool :=
  match phone with
  | none => true
  | some p => p == "" || phoneRegexMatch p

/-- Error message raised by `_validate_phone`. -/
def phoneFormatMsg : String := "Phone number must be +<digits> or 123-456-7890 format."

/-! ### Python `int()` on a string -/

/-- Continuation of a digit run after an initial digit: Python `int()`
accepts single underscores between digits (`1_000`), rejecting `1__0`,
`_1` and `1_`. -/
def pyIntDigitsAux : List Char → Bool
  | [] => true
  | '_' :: c :: rest => c.isDigit && pyIntDigitsAux rest
  | c :: rest => c.isDigit && pyIntDigitsAux rest

/-- A digit run acceptable to Python `int()`: nonempty, underscores only
between digits. -/
def pyIntDigits : List Char → Bool
  | [] => false
  | c :: rest => c.isDigit && pyIntDigitsAux rest

/-- Numeric value of a digit run, underscores ignored. -/
def digitsValue (cs : List Char) : Nat :=
  (cs.filter (fun c => c != '_')).foldl (fun n c => 10 * n + (c.toNat - 48)) 0

/-- Python `int(s)` for a string argument: surrounding whitespace stripped,
optional sign, then a digit run (ASCII digits; Python also accepts other
Unicode decimal digits, which no input in scope uses).  `none` models
`ValueError`. -/
def pyInt? (s : String) : Option Int :=
  match (pyStrip s).data with
  | '+' :: rest => if pyIntDigits rest then some (digitsValue rest : Int) else none
  | '-' :: rest => if pyIntDigits rest then some (-(digitsValue rest : Int)) else none
  | cs => if pyIntDigits cs then some (digitsValue cs : Int) else none

/-- `Decimal.quantize(Decimal('0.01'), rounding=ROUND_HALF_UP)`: rounding to
two fractional digits with ties away from zero. -/
def roundHalfUp2 (q : ℚ) : ℚ :=
  if q < 0 then -(((⌊-q * 100 + 1 / 2⌋ : ℤ) : ℚ) / 100)
  else ((⌊q * 100 + 1 / 2⌋ : ℤ) : ℚ) / 100

/-! ### Data model (`crm/models.py`) -/

/-- `crm.models.Customer`. -/
structure Customer where
  id : Nat
  name : String
  email : String
  phone : String
deriving Repr, DecidableEq

/-- `crm.models.Product`.  The model declares
`MinValueValidator(Decimal('0.01'))` on `price`, i.e. every persisted price
is meant to be at least `0.01`; Django does not run this validator on
`objects.create`, so the embedding does not enforce it either. -/
structure Product where
  id : Nat
  name : String
  price : ℚ
  stock : Int
deriving Repr, DecidableEq

/-- `crm.models.Order`: the customer foreign key, the ids of the products
linked through the many-to-many `products`, and `total_amount`. -/
structure Order where
  id : Nat
  customerId : Option Nat
  productIds : List Nat
  totalAmount : ℚ
deriving Repr, DecidableEq

/-- Database state: the three tables plus primary-key counters. -/
structure DB where
  customers : List Customer
  products : List Product
  orders : List Order
  nextCustomerId : Nat
  nextProductId : Nat
  nextOrderId : Nat
deriving Repr, DecidableEq

/-- The empty database, with primary keys starting at 1. -/
def DB.empty : DB := ⟨[], [], [], 1, 1, 1⟩

/-! ### GraphQL input objects (`crm/schema.py`) -/

/-- `CustomerInput`: `name` and `email` required, `phone` optional. -/
structure CustomerInput where
  name : String
  email : String
  phone : Option String
deriving Repr, DecidableEq

/-- `ProductInput`: `name` and `price` required, `stock` optional. -/
structure ProductInput where
  name : String
  price : ℚ
  stock : Option Int
deriving Repr, DecidableEq

/-- `OrderInput`: GraphQL `ID` values arrive as strings. -/
structure OrderInput where
  customerId : String
  productIds : List String
deriving Repr, DecidableEq

/-! ### `CreateCustomer.mutate` -/

/-- Payload of `CreateCustomer`. -/
structure CreateCustomerResult where
  customer : Option Customer
  message : Option String
  errors : List String
deriving Repr, DecidableEq

/-- `CreateCustomer.mutate`: name trimmed and required; phone validated on
the raw input value; email trimmed and lower-cased, then checked
case-insensitively (`email__iexact`) against existing customers; the error
list accumulates in that source order.  On success the customer is saved
with the trimmed phone. -/
def createCustomer (db : DB) (input : CustomerInput) : CreateCustomerResult × DB :=
  let name := pyStrip input.name
  let nameErrs := if name = "" then ["Name is required."] else []
  let phoneErrs := if validatePhone input.phone then [] else [phoneFormatMsg]
  let email := pyLower (pyStrip input.email)
  let emailErrs :=
    if db.customers.any (fun c => pyLower c.email == email) then ["Email already exists."]
    else []
  let errors := nameErrs ++ phoneErrs ++ emailErrs
  if errors = [] then
    let c : Customer := ⟨db.nextCustomerId, name, email, pyStrip (input.phone.getD "")⟩
    (⟨some c, some "Customer created successfully.", []⟩,
      { db with
          customers := db.customers ++ [c]
          nextCustomerId := db.nextCustomerId + 1 })
  else (⟨none, none, errors⟩, db)

/-! ### `BulkCreateCustomers.mutate` -/

/-- A row accepted for insertion (`Customer(...)` before `bulk_create`
assigns a primary key). -/
structure Pending where
  name : String
  email : String
  phone : String
deriving Repr, DecidableEq

/-- Normalised email of a bulk row: `payload.email.strip().lower()`. -/
def normEmail (r : CustomerInput) : String := pyLower (pyStrip r.email)

/-- Normalised name of a bulk row: `payload.name.strip()`. -/
def normName (r : CustomerInput) : String := pyStrip r.name

/-- Normalised phone of a bulk row:
`(payload.phone or "").strip() if payload.phone else ""`. -/
def normPhone (r : CustomerInput) : String :=
  match r.phone with
  | some p => pyStrip p
  | none => ""

/-- `{email.lower() for email in Customer.objects.values_list("email") if email}`:
the lower-cased non-blank emails already in the database. -/
def existingEmails (db : DB) : List String :=
  db.customers.filterMap (fun c => if c.email = "" then none else some (pyLower c.email))

/-- The per-row validation of `BulkCreateCustomers.mutate`: required name,
then the required / already-exists / duplicate-within-request email chain,
then the phone format (validated on the stripped phone), appended in that
source order.  `seen` holds the emails of earlier rows of the same batch
that passed validation. -/
def rowErrors (existing seen : List String) (r : CustomerInput) : List String :=
  let email := normEmail r
  let nameErrs := if normName r = "" then ["Name is required."] else []
  let emailErrs :=
    if email = "" then ["Email is required."]
    else if existing.contains email then ["Email already exists."]
    else if seen.contains email then ["Duplicate email within request."]
    else []
  let phoneErrs := if validatePhone (some (normPhone r)) then [] else [phoneFormatMsg]
  nameErrs ++ emailErrs ++ phoneErrs

/-- The loop body of `BulkCreateCustomers.mutate`: walks the batch with the
running `seen_emails` set, producing the indexed error strings, the pending
rows, and the final seen set.  `index` is the 0-based position of the first
remaining row. -/
def processRows (existing : List String) (seen : List String) (index : Nat) :
    List CustomerInput → List String × List Pending × List String
  | [] => ([], [], seen)
  | r :: rest =>
      let errs := rowErrors existing seen r
      if errs = [] then
        let out := processRows existing (normEmail r :: seen) (index + 1) rest
        (out.1, ⟨normName r, normEmail r, normPhone r⟩ :: out.2.1, out.2.2)
      else
        let out := processRows existing seen (index + 1) rest
        (("Entry " ++ toString (index + 1) ++ ": " ++ String.intercalate "; " errs) :: out.1,
          out.2.1, out.2.2)

/-- One row's outcome in the bulk loop: either its labelled error string or
the accepted pending row.  `index` is the row's 0-based position and `seen`
the emails of the earlier rows of the batch that passed validation. -/
def rowOutcome (existing seen : List String) (index : Nat) (r : CustomerInput) :
    String ⊕ Pending :=
  let errs := rowErrors existing seen r
  if errs = [] then .inr ⟨normName r, normEmail r, normPhone r⟩
  else .inl ("Entry " ++ toString (index + 1) ++ ": " ++ String.intercalate "; " errs)

/-- The trace of the bulk loop: one outcome per row, threading the
`seen_emails` set exactly as the loop does. -/
def rowTrace (existing seen : List String) (index : Nat) :
    List CustomerInput → List (String ⊕ Pending)
  | [] => []
  | r :: rest =>
      rowOutcome existing seen index r ::
        rowTrace existing
          (if rowErrors existing seen r = [] then normEmail r :: seen else seen)
          (index + 1) rest

/-- The error string of a row outcome, when the row failed. -/
def outcomeError : String ⊕ Pending → Option String
  | .inl e => some e
  | .inr _ => none

/-- The pending row of a row outcome, when the row passed. -/
def outcomePending : String ⊕ Pending → Option Pending
  | .inl _ => none
  | .inr p => some p

/-- Payload of `BulkCreateCustomers`. -/
structure BulkCreateResult where
  customers : List Customer
  errors : List String
deriving Repr, DecidableEq

/-- `bulk_create` assigning consecutive primary keys to the pending rows. -/
def assignIds (nextId : Nat) : List Pending → List Customer
  | [] => []
  | p :: rest => ⟨nextId, p.name, p.email, p.phone⟩ :: assignIds (nextId + 1) rest

/-- `BulkCreateCustomers.mutate`: an empty batch raises a `GraphQLError`;
otherwise each row is processed in order and the accepted rows are inserted
in one `bulk_create` inside a transaction, receiving consecutive primary
keys. -/
def bulkCreateCustomers (db : DB) (input : List CustomerInput) :
    Except String (BulkCreateResult × DB) :=
  if input = [] then .error "Input list cannot be empty."
  else
    let out := processRows (existingEmails db) [] 0 input
    let created := assignIds db.nextCustomerId out.2.1
    .ok (⟨created, out.1⟩,
      { db with
          customers := db.customers ++ created
          nextCustomerId := db.nextCustomerId + created.length })

/-! ### `CreateProduct.mutate` -/

/-- Payload of `CreateProduct`. -/
structure CreateProductResult where
  product : Option Product
  errors : List String
deriving Repr, DecidableEq

/-- `CreateProduct.mutate`: `price` must be strictly positive and `stock`
(defaulting to 0) non-negative, both errors accumulating; on success the
product is persisted with the price quantized half-up to 2 decimals. -/
def createProduct (db : DB) (input : ProductInput) : CreateProductResult × DB :=
  let price := input.price
  let stock := input.stock.getD 0
  let priceErrs := if price ≤ 0 then ["Price must be positive."] else []
  let stockErrs := if stock < 0 then ["Stock cannot be negative."] else []
  let errors := priceErrs ++ stockErrs
  if errors = [] then
    let p : Product := ⟨db.nextProductId, pyStrip input.name, roundHalfUp2 price, stock⟩
    (⟨some p, []⟩,
      { db with
          products := db.products ++ [p]
          nextProductId := db.nextProductId + 1 })
  else (⟨none, errors⟩, db)

/-! ### `CreateOrder.mutate` -/

/-- The product-id parse loop: one `Invalid product ID: <raw>` error per
unparseable id, parsed ids kept in input order. -/
def parseProductIds : List String → List String × List Int
  | [] => ([], [])
  | raw :: rest =>
      let out := parseProductIds rest
      match pyInt? raw with
      | some v => (out.1, v :: out.2)
      | none => (("Invalid product ID: " ++ raw) :: out.1, out.2)

/-- `dict.fromkeys` deduplication: keeps the first occurrence of each id,
preserving first-seen order.  `seen` holds the ids already emitted. -/
def dedupFirstAux (seen : List Int) : List Int → List Int
  | [] => []
  | x :: xs =>
      if seen.contains x then dedupFirstAux seen xs
      else x :: dedupFirstAux (x :: seen) xs

/-- `list(dict.fromkeys(product_ids))`. -/
def dedupFirst (l : List Int) : List Int := dedupFirstAux [] l

/-- Python `sorted` on integer lists (ascending). -/
def pySorted (l : List Int) : List Int := l.insertionSort (fun a b => a ≤ b)

/-- Payload of `CreateOrder`. -/
structure CreateOrderResult where
  order : Option Order
  errors : List String
deriving Repr, DecidableEq

/-- The de-duplicated parsed product ids of `CreateOrder.mutate`:
`product_ids = list(dict.fromkeys(product_ids))`. -/
def orderDedupedIds (input : OrderInput) : List Int :=
  dedupFirst (parseProductIds input.productIds).2

/-- `Customer.objects.get(pk=customer_id)` when the id parsed:
`none` both for an unparseable id and for `Customer.DoesNotExist`. -/
def orderCustomer? (db : DB) (input : OrderInput) : Option Customer :=
  match pyInt? input.customerId with
  | none => none
  | some cid => db.customers.find? (fun c => (c.id : Int) == cid)

/-- `list(Product.objects.filter(id__in=product_ids)) if product_ids else []`. -/
def orderProducts (db : DB) (input : OrderInput) : List Product :=
  if orderDedupedIds input = [] then []
  else db.products.filter (fun p => (orderDedupedIds input).contains (p.id : Int))

/-- `sorted(set(product_ids) - {product.id for product in products})`. -/
def orderMissing (db : DB) (input : OrderInput) : List Int :=
  pySorted ((orderDedupedIds input).filter
    (fun i => !((orderProducts db input).any (fun p => (p.id : Int) == i))))

/-- The accumulated error list of `CreateOrder.mutate`, in source append
order: customer-id parse, product-id parses, at-least-one-product, customer
existence, product existence. -/
def orderErrors (db : DB) (input : OrderInput) : List String :=
  (if (pyInt? input.customerId).isNone then ["Invalid customer ID."] else [])
  ++ (parseProductIds input.productIds).1
  ++ (if orderDedupedIds input = [] then ["At least one product must be provided."] else [])
  ++ (match pyInt? input.customerId with
      | none => []
      | some _ => if (orderCustomer? db input).isNone then ["Customer not found."] else [])
  ++ (if orderMissing db input = [] then []
      else ["Invalid product ID(s): "
        ++ String.intercalate ", " ((orderMissing db input).map toString)])

/-- `CreateOrder.mutate`: all checks of `orderErrors` run before
short-circuiting.  With any error the mutation returns a null order and
writes nothing; otherwise the order is created with `total_amount` the
half-up rounded sum of the resolved products' prices
(`sum((product.price for product in products), Decimal('0'))`), linked to
those products. -/
def createOrder (db : DB) (input : OrderInput) : CreateOrderResult × DB :=
  let errors := orderErrors db input
  if errors = [] then
    let products := orderProducts db input
    let total := products.foldl (fun acc p => acc + p.price) 0
    let o : Order :=
      ⟨db.nextOrderId, (orderCustomer? db input).map (fun c => c.id),
        products.map (fun p => p.id), roundHalfUp2 total⟩
    (⟨some o, []⟩,
      { db with
          orders := db.orders ++ [o]
          nextOrderId := db.nextOrderId + 1 })
  else (⟨none, errors⟩, db)

/-! ### `_filter_queryset` -/

/-- The behaviour `_filter_queryset` relies on from a filter-set class:
validation of a string-keyed payload, the filtered queryset, and the field
error dictionary.  The concrete classes live in `crm/filters.py`, which is
not part of the sources in scope, so they stay abstract here. -/
structure FilterSetCls (α : Type) where
  isValid : List (String × String) → Bool
  qs : List (String × String) → List α → List α
  fieldErrors : List (String × String) → List (String × List String)

/-- `getattr(filter_input, attr, None)` on a filter input object, modelled
as an association list from attribute name to optional value. -/
def attrValue (filterInput : List (String × Option String)) (attr : String) : Option String :=
  match filterInput.find? (fun p => p.1 == attr) with
  | some p => p.2
  | none => none

/-- The payload loop of `_filter_queryset`: for each `(attr, lookup)` pair
of the mapping, the lookup is added exactly when the attribute's value is
not `None`. -/
def buildPayload (filterInput : List (String × Option String))
    (mapping : List (String × String)) : List (String × String) :=
  mapping.filterMap (fun al =>
    match attrValue filterInput al.1 with
    | some v => some (al.2, v)
    | none => none)

/-- The message list of `_filter_queryset`:
`f"{field}: {error}"` for every error of every field. -/
def filtersetMessages {α : Type} (fs : FilterSetCls α)
    (payload : List (String × String)) : List String :=
  (fs.fieldErrors payload).flatMap (fun fe => fe.2.map (fun e => fe.1 ++ ": " ++ e))

/-- `_filter_queryset`: with no filter input the filter-set runs on an empty
payload; otherwise the payload is built from the present fields, and an
invalid payload raises one `GraphQLError` joining all field errors with
`"; "` (falling back to `Invalid filter arguments.` when the join is
empty). -/
def filterQueryset {α : Type} (fs : FilterSetCls α) (queryset : List α)
    (filterInput : Option (List (String × Option String)))
    (mapping : List (String × String)) : Except String (List α) :=
  match filterInput with
  | none => .ok (fs.qs [] queryset)
  | some fi =>
      let payload := buildPayload fi mapping
      if fs.isValid payload then .ok (fs.qs payload queryset)
      else
        let joined := String.intercalate "; " (filtersetMessages fs payload)
        .error (if joined = "" then "Invalid filter arguments." else joined)

/-- The mapping of `Query.resolve_all_products`. -/
def productFilterMapping : List (String × String) :=
  [("name_icontains", "name_icontains"), ("price_gte", "price_gte"),
   ("price_lte", "price_lte"), ("stock_gte", "stock_gte"), ("stock_lte", "stock_lte")]

/-- The mapping of `Query.resolve_all_customers`. -/
def customerFilterMapping : List (String × String) :=
  [("name_icontains", "name_icontains"), ("email_icontains", "email_icontains"),
   ("created_at_gte", "created_at_gte"), ("created_at_lte", "created_at_lte"),
   ("phone_pattern", "phone_pattern")]

/-- The mapping of `Query.resolve_all_orders`. -/
def orderFilterMapping : List (String × String) :=
  [("total_amount_gte", "total_amount_gte"), ("total_amount_lte", "total_amount_lte"),
   ("order_date_gte", "order_date_gte"), ("order_date_lte", "order_date_lte"),
   ("customer_name", "customer_name"), ("product_name", "product_name"),
   ("product_id", "product_id")]

/-- Modelled from the spec: the filter-set classes of `crm/filters.py`
(`CustomerFilter`, `ProductFilter`, `OrderFilter`) are not among the source
files in scope.  Following section 4.5 ("Product filters: name substring,
price range, stock range"; "An invalid filter value (e.g., malformed date)
surfaces as a single combined error message joining all filter-set field
errors") and the glossary entry for filter-set, this concrete product
filter-set validates its `price_gte` lookup as a number, filters by minimum
price, and reports one field error for a malformed value. -/
def specProductFilterSet : FilterSetCls ℚ where
  isValid := fun payload =>
    payload.all (fun kv => kv.1 != "price_gte" || (pyInt? kv.2).isSome)
  qs := fun payload items =>
    items.filter (fun q => payload.all (fun kv =>
      if kv.1 = "price_gte" then
        match pyInt? kv.2 with
        | some n => decide ((n : ℚ) ≤ q)
        | none => false
      else true))
  fieldErrors := fun payload =>
    payload.filterMap (fun kv =>
      if kv.1 == "price_gte" && (pyInt? kv.2).isNone then
        some (kv.1, ["Enter a number."])
      else none)

/-- A small sample database used by the concrete witnesses: one customer
and two products. -/
def sampleDB : DB :=
  ⟨[⟨1, "Alice", "alice@x.com", ""⟩],
   [⟨2, "Laptop", 21/2, 0⟩, ⟨3, "Mouse", 9/4, 5⟩], [], 2, 4, 1⟩

/-! ### Lemmas: the product-id parse loop -/

theorem parseProductIds_ids (rs : List String) :
    (parseProductIds rs).2 = rs.filterMap pyInt? := by
  induction rs with
  | nil => rfl
  | cons raw rest ih =>
      simp only [parseProductIds, List.filterMap_cons]
      cases h : pyInt? raw <;> simp [h, ih]

theorem parseProductIds_all_fail (rs : List String)
    (h : ∀ raw ∈ rs, pyInt? raw = none) :
    parseProductIds rs = (rs.map (fun raw => "Invalid product ID: " ++ raw), []) := by
  induction rs with
  | nil => rfl
  | cons raw rest ih =>
      have hraw : pyInt? raw = none := h raw (List.mem_cons_self raw rest)
      have hrest : ∀ r ∈ rest, pyInt? r = none := fun r hr => h r (List.mem_cons_of_mem raw hr)
      simp [parseProductIds, hraw, ih hrest]

/-! ### Lemmas: first-seen de-duplication -/

theorem contains_iff_mem {α : Type} [BEq α] [LawfulBEq α] (l : List α) (x : α) :
    l.contains x = true ↔ x ∈ l :=
  List.elem_iff

theorem dedupFirstAux_sublist (seen l : List Int) :
    (dedupFirstAux seen l).Sublist l := by
  induction l generalizing seen with
  | nil => simp [dedupFirstAux]
  | cons x xs ih =>
      simp only [dedupFirstAux]
      split
      · exact (ih seen).cons x
      · exact (ih (x :: seen)).cons₂ x

theorem mem_dedupFirstAux {seen l : List Int} {x : Int} :
    x ∈ dedupFirstAux seen l ↔ x ∈ l ∧ x ∉ seen := by
  induction l generalizing seen with
  | nil => simp [dedupFirstAux]
  | cons y ys ih =>
      simp only [dedupFirstAux]
      by_cases hy : y ∈ seen
      · rw [if_pos ((contains_iff_mem _ _).mpr hy), ih]
        constructor
        · rintro ⟨h1, h2⟩
          exact ⟨List.mem_cons_of_mem y h1, h2⟩
        · rintro ⟨h1, h2⟩
          rcases List.mem_cons.mp h1 with rfl | hm
          · exact absurd hy h2
          · exact ⟨hm, h2⟩
      · rw [if_neg (fun hc => hy ((contains_iff_mem _ _).mp hc))]
        simp only [List.mem_cons, ih, List.mem_cons]
        constructor
        · rintro (rfl | ⟨h1, h2⟩)
          · exact ⟨Or.inl rfl, hy⟩
          · exact ⟨Or.inr h1, fun hs => h2 (Or.inr hs)⟩
        · rintro ⟨rfl | h1, h2⟩
          · exact Or.inl rfl
          · by_cases hxy : x = y
            · exact Or.inl hxy
            · refine Or.inr ⟨h1, fun hs => ?_⟩
              rcases hs with he | hm
              · exact hxy he
              · exact h2 hm

theorem dedupFirstAux_nodup (seen l : List Int) :
    (dedupFirstAux seen l).Nodup := by
  induction l generalizing seen with
  | nil => simp [dedupFirstAux]
  | cons x xs ih =>
      simp only [dedupFirstAux]
      split
      · exact ih seen
      · refine List.nodup_cons.mpr ⟨fun hmem => ?_, ih (x :: seen)⟩
        exact (mem_dedupFirstAux.mp hmem).2 (List.mem_cons_self x seen)

theorem dedupFirstAux_congr {seen₁ seen₂ : List Int} (l : List Int)
    (h : ∀ a, a ∈ seen₁ ↔ a ∈ seen₂) :
    dedupFirstAux seen₁ l = dedupFirstAux seen₂ l := by
  induction l generalizing seen₁ seen₂ with
  | nil => rfl
  | cons x xs ih =>
      have hc : seen₁.contains x = seen₂.contains x := by
        by_cases hx : x ∈ seen₁
        · rw [(contains_iff_mem seen₁ x).mpr hx, (contains_iff_mem seen₂ x).mpr ((h x).mp hx)]
        · have hx₂ : x ∉ seen₂ := fun hm => hx ((h x).mpr hm)
          have e1 : seen₁.contains x = false :=
            Bool.eq_false_iff.mpr (fun hc => hx ((contains_iff_mem seen₁ x).mp hc))
          have e2 : seen₂.contains x = false :=
            Bool.eq_false_iff.mpr (fun hc => hx₂ ((contains_iff_mem seen₂ x).mp hc))
          rw [e1, e2]
      simp only [dedupFirstAux, hc]
      split
      · exact ih h
      · rw [@ih (x :: seen₁) (x :: seen₂)
          (fun a => by simp only [List.mem_cons]; rw [h a])]

theorem dedupFirstAux_seen_filter (x : Int) (seen l : List Int) :
    dedupFirstAux (x :: seen) l = dedupFirstAux seen (l.filter (fun y => !(y == x))) := by
  induction l generalizing seen with
  | nil => rfl
  | cons y ys ih =>
      rw [List.filter_cons]
      by_cases hyx : y = x
      · have hbeq : (y == x) = true := beq_iff_eq.mpr hyx
        have hcont : (x :: seen).contains y = true :=
          (contains_iff_mem _ y).mpr (by rw [hyx]; exact List.mem_cons_self x seen)
        rw [hbeq]
        simp only [dedupFirstAux, hcont, if_true, Bool.not_true, Bool.false_eq_true, if_false]
        exact ih seen
      · have hbeq : (y == x) = false := beq_eq_false_iff_ne.mpr hyx
        rw [hbeq]
        simp only [Bool.not_false, if_pos rfl]
        by_cases hys : y ∈ seen
        · have h₁ : (x :: seen).contains y = true :=
            (contains_iff_mem _ y).mpr (List.mem_cons_of_mem x hys)
          have h₂ : seen.contains y = true := (contains_iff_mem _ y).mpr hys
          simp only [dedupFirstAux, h₁, h₂, if_true]
          exact ih seen
        · have h₁ : (x :: seen).contains y = false := by
            refine Bool.eq_false_iff.mpr (fun hcon => ?_)
            rcases List.mem_cons.mp ((contains_iff_mem _ y).mp hcon) with h | h
            · exact hyx h
            · exact hys h
          have h₂ : seen.contains y = false := by
            refine Bool.eq_false_iff.mpr (fun hcon => ?_)
            exact hys ((contains_iff_mem _ y).mp hcon)
          simp only [dedupFirstAux, h₁, h₂, Bool.false_eq_true, if_false]
          rw [show dedupFirstAux (y :: x :: seen) ys = dedupFirstAux (x :: y :: seen) ys from
            dedupFirstAux_congr ys (fun a => by simp only [List.mem_cons]; tauto)]
          rw [ih (y :: seen)]

/-- First-seen characterisation of `dict.fromkeys` de-duplication: the head
is kept and every later occurrence of it is dropped. -/
theorem dedupFirst_cons (x : Int) (l : List Int) :
    dedupFirst (x :: l) = x :: dedupFirst (l.filter (fun y => !(y == x))) := by
  have hcont : ([] : List Int).contains x = false := rfl
  simp only [dedupFirst, dedupFirstAux, hcont, Bool.false_eq_true, if_false]
  exact congrArg (x :: ·) (dedupFirstAux_seen_filter x [] l)

theorem mem_dedupFirst {l : List Int} {x : Int} :
    x ∈ dedupFirst l ↔ x ∈ l := by
  rw [dedupFirst, mem_dedupFirstAux]
  simp

theorem dedupFirst_sublist (l : List Int) : (dedupFirst l).Sublist l :=
  dedupFirstAux_sublist [] l

theorem dedupFirst_nodup (l : List Int) : (dedupFirst l).Nodup :=
  dedupFirstAux_nodup [] l

/-! ### Lemmas: `sorted` -/

theorem pySorted_perm (l : List Int) : (pySorted l).Perm l := by
  unfold pySorted
  exact List.perm_insertionSort _ l

theorem mem_pySorted {l : List Int} {x : Int} : x ∈ pySorted l ↔ x ∈ l :=
  (pySorted_perm l).mem_iff

theorem pySorted_eq_nil {l : List Int} : pySorted l = [] ↔ l = [] := by
  constructor
  · intro h
    have hp := pySorted_perm l
    rw [h] at hp
    exact (List.Perm.nil_eq hp).symm
  · rintro rfl
    have hp := pySorted_perm ([] : List Int)
    exact List.Perm.eq_nil hp

/-! ### Lemmas: the bulk-creation loop -/

theorem processRows_append (ex seen : List String) (idx : Nat)
    (l1 l2 : List CustomerInput) :
    processRows ex seen idx (l1 ++ l2) =
      ((processRows ex seen idx l1).1
          ++ (processRows ex (processRows ex seen idx l1).2.2 (idx + l1.length) l2).1,
        (processRows ex seen idx l1).2.1
          ++ (processRows ex (processRows ex seen idx l1).2.2 (idx + l1.length) l2).2.1,
        (processRows ex (processRows ex seen idx l1).2.2 (idx + l1.length) l2).2.2) := by
  induction l1 generalizing seen idx with
  | nil => simp [processRows]
  | cons r rest ih =>
      have harith : idx + 1 + rest.length = idx + (rest.length + 1) := by omega
      by_cases he : rowErrors ex seen r = [] <;>
        simp [processRows, he, ih, harith, List.length_cons]

theorem processRows_errors_eq_trace (ex seen : List String) (idx : Nat)
    (rows : List CustomerInput) :
    (processRows ex seen idx rows).1 =
      (rowTrace ex seen idx rows).filterMap outcomeError := by
  induction rows generalizing seen idx with
  | nil => rfl
  | cons r rest ih =>
      by_cases he : rowErrors ex seen r = [] <;>
        simp [processRows, rowTrace, rowOutcome, outcomeError, he, ih]

theorem processRows_pending_eq_trace (ex seen : List String) (idx : Nat)
    (rows : List CustomerInput) :
    (processRows ex seen idx rows).2.1 =
      (rowTrace ex seen idx rows).filterMap outcomePending := by
  induction rows generalizing seen idx with
  | nil => rfl
  | cons r rest ih =>
      by_cases he : rowErrors ex seen r = [] <;>
        simp [processRows, rowTrace, rowOutcome, outcomePending, he, ih]

theorem rowTrace_length (ex seen : List String) (idx : Nat)
    (rows : List CustomerInput) :
    (rowTrace ex seen idx rows).length = rows.length := by
  induction rows generalizing seen idx with
  | nil => rfl
  | cons r rest ih => simp [rowTrace, ih]

theorem rowTrace_getElem (ex : List String) (rows : List CustomerInput) :
    ∀ (seen : List String) (idx i : Nat) (r : CustomerInput), rows[i]? = some r →
      ∃ seenI : List String,
        (rowTrace ex seen idx rows)[i]? = some (rowOutcome ex seenI (idx + i) r) := by
  induction rows with
  | nil => intro seen idx i r hi; simp at hi
  | cons r0 rest ih =>
      intro seen idx i r hi
      cases i with
      | zero =>
          rw [List.getElem?_cons_zero, Option.some_inj] at hi
          subst hi
          exact ⟨seen, by simp [rowTrace]⟩
      | succ n =>
          rw [List.getElem?_cons_succ] at hi
          obtain ⟨seenI, hI⟩ := ih
            (if rowErrors ex seen r0 = [] then normEmail r0 :: seen else seen)
            (idx + 1) n r hi
          refine ⟨seenI, ?_⟩
          have harith : idx + 1 + n = idx + (n + 1) := by omega
          rw [rowTrace, List.getElem?_cons_succ, hI, harith]

theorem filterMap_outcome_lengths (tr : List (String ⊕ Pending)) :
    (tr.filterMap outcomeError).length + (tr.filterMap outcomePending).length = tr.length := by
  induction tr with
  | nil => rfl
  | cons o rest ih =>
      cases o with
      | inl e => simp [outcomeError, outcomePending]; omega
      | inr p => simp [outcomeError, outcomePending]; omega

theorem assignIds_length (n : Nat) (l : List Pending) :
    (assignIds n l).length = l.length := by
  induction l generalizing n with
  | nil => rfl
  | cons p rest ih => simp [assignIds, ih]

theorem assignIds_proj (n : Nat) (l : List Pending) :
    (assignIds n l).map (fun c => (c.name, c.email, c.phone)) =
      l.map (fun p => (p.name, p.email, p.phone)) := by
  induction l generalizing n with
  | nil => rfl
  | cons p rest ih => simp [assignIds, ih]

theorem rowErrors_nil_email_ne (ex seen : List String) (r : CustomerInput)
    (h : rowErrors ex seen r = []) : normEmail r ≠ "" := by
  intro hblank
  simp [rowErrors, hblank, List.append_eq_nil] at h

/-! ### Lemmas: the phone regex -/

theorem reEnd_iff (t : List Char) : reEnd t = true ↔ t = [] ∨ t = ['\n'] := by
  cases t with
  | nil => simp [reEnd]
  | cons c rest => simp [reEnd, beq_iff_eq]

theorem all_takeWhile_self {α : Type} (p : α → Bool) (l : List α) :
    (l.takeWhile p).all p = true := by
  induction l with
  | nil => rfl
  | cons x xs ih =>
      by_cases hx : p x = true
      · simp [List.takeWhile_cons, hx, ih]
      · simp [List.takeWhile_cons, hx]

theorem takeWhile_of_all {α : Type} (p : α → Bool) (l : List α)
    (h : l.all p = true) : l.takeWhile p = l ∧ l.dropWhile p = [] := by
  induction l with
  | nil => exact ⟨rfl, rfl⟩
  | cons x xs ih =>
      rw [List.all_cons, Bool.and_eq_true] at h
      have := ih h.2
      simp [List.takeWhile_cons, List.dropWhile_cons, h.1, this.1, this.2]

theorem takeWhile_append_single {α : Type} (p : α → Bool) (l : List α) (x : α)
    (hl : l.all p = true) (hx : p x = false) :
    (l ++ [x]).takeWhile p = l ∧ (l ++ [x]).dropWhile p = [x] := by
  induction l with
  | nil => simp [List.takeWhile_cons, List.dropWhile_cons, hx]
  | cons y ys ih =>
      rw [List.all_cons, Bool.and_eq_true] at hl
      have hih := ih hl.2
      simp [List.takeWhile_cons, List.dropWhile_cons, hl.1, hih.1, hih.2]

theorem claimPlus_iff (cs : List Char) :
    claimPlus cs = true ↔
      ∃ ds, cs = '+' :: ds ∧ ds.all Char.isDigit = true ∧
        7 ≤ ds.length ∧ ds.length ≤ 15 := by
  cases cs with
  | nil => simp [claimPlus]
  | cons c ds =>
      by_cases hc : c = '+'
      · subst hc
        simp [claimPlus, and_assoc]
      · simp [claimPlus, hc]

theorem claimDash_iff (l : List Char) :
    claimDash l = true ↔
      ∃ a1 a2 a3 a4 a5 a6 a7 a8 a9 a10 : Char,
        l = [a1, a2, a3, '-', a4, a5, a6, '-', a7, a8, a9, a10] ∧
        ([a1, a2, a3, a4, a5, a6, a7, a8, a9, a10].all Char.isDigit) = true := by
  rcases l with _ | ⟨b1, _ | ⟨b2, _ | ⟨b3, _ | ⟨b4, _ | ⟨b5, _ | ⟨b6, _ | ⟨b7, _ |
    ⟨b8, _ | ⟨b9, _ | ⟨b10, _ | ⟨b11, _ | ⟨b12, tail⟩⟩⟩⟩⟩⟩⟩⟩⟩⟩⟩⟩ <;>
    first
      | (constructor
         · intro h
           exact absurd h Bool.false_ne_true
         · rintro ⟨a1, a2, a3, a4, a5, a6, a7, a8, a9, a10, heq, -⟩
           have hlen := congrArg List.length heq
           simp only [List.length_cons, List.length_nil] at hlen
           omega)
      | skip
  cases tail with
  | nil =>
      constructor
      · intro hcd
        have h0 : (([b1, b2, b3, b5, b6, b7, b9, b10, b11, b12].all Char.isDigit)
            && decide (b4 = '-') && decide (b8 = '-')
            && List.isEmpty ([] : List Char)) = true := hcd
        rw [Bool.and_eq_true, Bool.and_eq_true, Bool.and_eq_true,
          decide_eq_true_eq, decide_eq_true_eq] at h0
        obtain ⟨⟨⟨hdig, h4⟩, h8⟩, -⟩ := h0
        subst h4
        subst h8
        exact ⟨b1, b2, b3, b5, b6, b7, b9, b10, b11, b12, rfl, hdig⟩
      · rintro ⟨a1, a2, a3, a4, a5, a6, a7, a8, a9, a10, heq, hdig⟩
        simp only [List.cons.injEq, and_true] at heq
        obtain ⟨rfl, rfl, rfl, rfl, rfl, rfl, rfl, rfl, rfl, rfl, rfl, rfl⟩ := heq
        show (([b1, b2, b3, b5, b6, b7, b9, b10, b11, b12].all Char.isDigit)
            && decide ('-' = '-') && decide ('-' = '-')
            && List.isEmpty ([] : List Char)) = true
        rw [hdig]
        rfl
  | cons t tail2 =>
      constructor
      · intro hcd
        have h0 : (([b1, b2, b3, b5, b6, b7, b9, b10, b11, b12].all Char.isDigit)
            && decide (b4 = '-') && decide (b8 = '-')
            && List.isEmpty (t :: tail2)) = true := hcd
        rw [Bool.and_eq_true] at h0
        exact absurd h0.2 (by simp)
      · rintro ⟨a1, a2, a3, a4, a5, a6, a7, a8, a9, a10, heq, -⟩
        have hlen := congrArg List.length heq
        simp only [List.length_cons, List.length_nil] at hlen
        omega

theorem reDashBranch_iff (cs : List Char) :
    reDashBranch cs = true ↔
      ∃ (a1 a2 a3 a4 a5 a6 a7 a8 a9 a10 : Char) (tail : List Char),
        cs = a1 :: a2 :: a3 :: '-' :: a4 :: a5 :: a6 :: '-' :: a7 :: a8 :: a9 :: a10 :: tail ∧
        ([a1, a2, a3, a4, a5, a6, a7, a8, a9, a10].all Char.isDigit) = true ∧
        reEnd tail = true := by
  rcases cs with _ | ⟨b1, _ | ⟨b2, _ | ⟨b3, _ | ⟨b4, _ | ⟨b5, _ | ⟨b6, _ | ⟨b7, _ |
    ⟨b8, _ | ⟨b9, _ | ⟨b10, _ | ⟨b11, _ | ⟨b12, tail⟩⟩⟩⟩⟩⟩⟩⟩⟩⟩⟩⟩ <;>
    first
      | (constructor
         · intro h
           exact absurd h Bool.false_ne_true
         · rintro ⟨a1, a2, a3, a4, a5, a6, a7, a8, a9, a10, tl, heq, -, -⟩
           have hlen := congrArg List.length heq
           simp only [List.length_cons, List.length_nil] at hlen
           omega)
      | skip
  constructor
  · intro hrd
    have h0 : (([b1, b2, b3, b5, b6, b7, b9, b10, b11, b12].all Char.isDigit)
        && decide (b4 = '-') && decide (b8 = '-') && reEnd tail) = true := hrd
    rw [Bool.and_eq_true, Bool.and_eq_true, Bool.and_eq_true,
      decide_eq_true_eq, decide_eq_true_eq] at h0
    obtain ⟨⟨⟨hdig, h4⟩, h8⟩, hend⟩ := h0
    subst h4
    subst h8
    exact ⟨b1, b2, b3, b5, b6, b7, b9, b10, b11, b12, tail, rfl, hdig, hend⟩
  · rintro ⟨a1, a2, a3, a4, a5, a6, a7, a8, a9, a10, tl, heq, hdig, hend⟩
    simp only [List.cons.injEq] at heq
    obtain ⟨rfl, rfl, rfl, rfl, rfl, rfl, rfl, rfl, rfl, rfl, rfl, rfl, rfl⟩ := heq
    show (([b1, b2, b3, b5, b6, b7, b9, b10, b11, b12].all Char.isDigit)
        && decide ('-' = '-') && decide ('-' = '-') && reEnd tail) = true
    rw [hdig, hend]
    rfl

theorem rePlusBranch_iff (cs : List Char) :
    rePlusBranch cs = true ↔
      claimPlus cs = true ∨ ∃ l, cs = l ++ ['\n'] ∧ claimPlus l = true := by
  cases cs with
  | nil =>
      constructor
      · intro h
        simp [rePlusBranch] at h
      · rintro (hp | ⟨l, hl, hp⟩)
        · simp [claimPlus] at hp
        · simp at hl
  | cons c rest =>
      by_cases hc : c = '+'
      · subst hc
        have hview : rePlusBranch ('+' :: rest) =
            (decide (7 ≤ (rest.takeWhile Char.isDigit).length)
              && decide ((rest.takeWhile Char.isDigit).length ≤ 15)
              && reEnd (rest.dropWhile Char.isDigit)) := rfl
        rw [hview, Bool.and_eq_true, Bool.and_eq_true, decide_eq_true_eq, decide_eq_true_eq]
        constructor
        · rintro ⟨⟨h7, h15⟩, hend⟩
          rcases (reEnd_iff _).mp hend with hnil | hnl
          · have hsplit := List.takeWhile_append_dropWhile Char.isDigit rest
            rw [hnil, List.append_nil] at hsplit
            refine Or.inl ((claimPlus_iff _).mpr ⟨rest, rfl, ?_, ?_, ?_⟩)
            · rw [← hsplit]
              exact all_takeWhile_self Char.isDigit rest
            · rw [← hsplit]
              exact h7
            · rw [← hsplit]
              exact h15
          · have hsplit := List.takeWhile_append_dropWhile Char.isDigit rest
            rw [hnl] at hsplit
            refine Or.inr ⟨'+' :: rest.takeWhile Char.isDigit, ?_, ?_⟩
            · rw [List.cons_append, hsplit]
            · exact (claimPlus_iff _).mpr
                ⟨rest.takeWhile Char.isDigit, rfl, all_takeWhile_self Char.isDigit rest, h7, h15⟩
        · rintro (hp | ⟨l, hl, hp⟩)
          · obtain ⟨ds, heq, hdig, h7, h15⟩ := (claimPlus_iff _).mp hp
            have hrd : rest = ds := by simpa using heq
            subst hrd
            have hta := takeWhile_of_all Char.isDigit rest hdig
            rw [hta.1, hta.2]
            exact ⟨⟨h7, h15⟩, rfl⟩
          · obtain ⟨ds, rfl, hdig, h7, h15⟩ := (claimPlus_iff _).mp hp
            rw [List.cons_append, List.cons.injEq] at hl
            obtain ⟨-, rfl⟩ := hl
            have hta := takeWhile_append_single Char.isDigit ds '\n' hdig (by decide)
            rw [hta.1, hta.2]
            exact ⟨⟨h7, h15⟩, by decide⟩
      · constructor
        · intro h
          simp [rePlusBranch, hc] at h
        · rintro (hp | ⟨l, hl, hp⟩)
          · simp [claimPlus, hc] at hp
          · obtain ⟨ds, rfl, -, -, -⟩ := (claimPlus_iff _).mp hp
            rw [List.cons_append, List.cons.injEq] at hl
            exact absurd hl.1 hc

theorem reDash_iff (cs : List Char) :
    reDashBranch cs = true ↔
      claimDash cs = true ∨ ∃ l, cs = l ++ ['\n'] ∧ claimDash l = true := by
  rw [reDashBranch_iff]
  constructor
  · rintro ⟨a1, a2, a3, a4, a5, a6, a7, a8, a9, a10, tail, rfl, hdig, hend⟩
    rcases (reEnd_iff _).mp hend with rfl | rfl
    · exact Or.inl ((claimDash_iff _).mpr
        ⟨a1, a2, a3, a4, a5, a6, a7, a8, a9, a10, rfl, hdig⟩)
    · refine Or.inr ⟨[a1, a2, a3, '-', a4, a5, a6, '-', a7, a8, a9, a10], rfl, ?_⟩
      exact (claimDash_iff _).mpr ⟨a1, a2, a3, a4, a5, a6, a7, a8, a9, a10, rfl, hdig⟩
  · rintro (hcd | ⟨l, rfl, hcd⟩)
    · obtain ⟨a1, a2, a3, a4, a5, a6, a7, a8, a9, a10, rfl, hdig⟩ := (claimDash_iff _).mp hcd
      exact ⟨a1, a2, a3, a4, a5, a6, a7, a8, a9, a10, [], rfl, hdig, rfl⟩
    · obtain ⟨a1, a2, a3, a4, a5, a6, a7, a8, a9, a10, rfl, hdig⟩ := (claimDash_iff _).mp hcd
      exact ⟨a1, a2, a3, a4, a5, a6, a7, a8, a9, a10, ['\n'], rfl, hdig, rfl⟩

theorem phoneRegexMatch_iff (s : String) :
    phoneRegexMatch s = true ↔
      claimPhoneCore s.data = true ∨
        ∃ l, s.data = l ++ ['\n'] ∧ claimPhoneCore l = true := by
  simp only [phoneRegexMatch, claimPhoneCore, Bool.or_eq_true]
  rw [rePlusBranch_iff, reDash_iff]
  constructor
  · rintro ((hp | ⟨l, hl, hp⟩) | (hd | ⟨l, hl, hd⟩))
    · exact Or.inl (Or.inl hp)
    · exact Or.inr ⟨l, hl, Or.inl hp⟩
    · exact Or.inl (Or.inr hd)
    · exact Or.inr ⟨l, hl, Or.inr hd⟩
  · rintro ((hp | hd) | ⟨l, hl, hp | hd⟩)
    · exact Or.inl (Or.inl hp)
    · exact Or.inr (Or.inl hd)
    · exact Or.inl (Or.inr ⟨l, hl, hp⟩)
    · exact Or.inr (Or.inr ⟨l, hl, hd⟩)

theorem validatePhone_iff (s : String) :
    validatePhone (some s) = true ↔
      (s = "" ∨ claimPhoneCore s.data = true ∨
        ∃ l, s.data = l ++ ['\n'] ∧ claimPhoneCore l = true) := by
  simp only [validatePhone, Bool.or_eq_true, beq_iff_eq]
  rw [phoneRegexMatch_iff]

theorem processRows_seen_nonblank (ex : List String) (rows : List CustomerInput) :
    ∀ (seen : List String) (idx : Nat), (∀ e ∈ seen, e ≠ "") →
      ∀ e ∈ (processRows ex seen idx rows).2.2, e ≠ "" := by
  induction rows with
  | nil => intro seen idx h0; simpa [processRows] using h0
  | cons r rest ih =>
      intro seen idx h0
      by_cases he : rowErrors ex seen r = []
      · simp only [processRows, he, if_pos rfl]
        refine ih (normEmail r :: seen) (idx + 1) ?_
        intro e hme
        rcases List.mem_cons.mp hme with rfl | hm
        · exact rowErrors_nil_email_ne ex seen r he
        · exact h0 e hm
      · simp only [processRows, he, if_neg he]
        exact ih seen (idx + 1) h0

/-! ### Lemmas: `CreateOrder.mutate` -/

theorem createOrder_failure (db : DB) (input : OrderInput)
    (h : orderErrors db input ≠ []) :
    createOrder db input = (⟨none, orderErrors db input⟩, db) := by
  simp [createOrder, h]

theorem createOrder_errors_ne (db : DB) (input : OrderInput)
    (h : (createOrder db input).1.errors ≠ []) :
    (createOrder db input).1.order = none ∧ (createOrder db input).2 = db := by
  by_cases he : orderErrors db input = []
  · exact absurd (by simp [createOrder, he]) h
  · rw [createOrder_failure db input he]
    exact ⟨rfl, rfl⟩

theorem foldl_price_sum (l : List Product) :
    l.foldl (fun acc p => acc + p.price) 0 = (l.map Product.price).sum := by
  rw [List.sum_eq_foldl, List.foldl_map]

/-! ## The claims -/

/-- C7, counterexample.  The claim states that phone validation accepts a
non-empty phone string if and only if it matches `+<7-15 digits>` or
`###-###-####`.  The string `"+1234567\n"` is non-empty and matches neither
pattern, yet `_validate_phone` accepts it: `PHONE_REGEX.match` uses Python
`$`, which also matches just before a single newline ending the string. -/
theorem claim7_counterexample :
    validatePhone (some "+1234567\n") = true ∧
    claimPhonePattern "+1234567\n" = false ∧
    "+1234567\n" ≠ "" := by
  refine ⟨by decide, by decide, by decide⟩

/-- C7, amended: `_validate_phone` accepts `None` and the empty string, and
accepts a non-empty phone string iff it matches `+<7-15 digits>` or
`###-###-####` — in each case optionally followed by one trailing newline
(the semantics of Python `$` in `re.match`). -/
theorem claim7_phone_validation_amended (s : String) :
    validatePhone (some s) = true ↔
      (s = "" ∨ claimPhonePattern s = true ∨
        ∃ l, s.data = l ++ ['\n'] ∧ claimPhoneCore l = true) :=
  validatePhone_iff s

/-- C7, witness: the amended equivalence applied at `"+1234567"`. -/
theorem claim7_witness : validatePhone (some "+1234567") = true :=
  (claim7_phone_validation_amended "+1234567").mpr (Or.inr (Or.inl (by decide)))

/-- C5, code bug.  The claim (with the spec and the model declaration
`MinValueValidator(Decimal('0.01'))`) requires every persisted price to be
positive.  `CreateProduct.mutate` validates `price > 0` on the raw input and
only then rounds half-up to 2 decimals, so the input price `0.001` passes
validation and is persisted as `0.00` — not a positive decimal. -/
theorem claim5_rounded_price_zero :
    (0 : ℚ) < 1/1000 ∧
    (createProduct DB.empty ⟨"Widget", 1/1000, none⟩).1.errors = [] ∧
    (createProduct DB.empty ⟨"Widget", 1/1000, none⟩).1.product =
      some ⟨1, "Widget", 0, 0⟩ ∧
    (createProduct DB.empty ⟨"Widget", 1/1000, none⟩).2.products =
      [⟨1, "Widget", 0, 0⟩] := by
  have hle : ¬((1000 : ℚ)⁻¹ ≤ 0) := by norm_num
  have hr : roundHalfUp2 ((1000 : ℚ)⁻¹) = 0 := by norm_num [roundHalfUp2]
  refine ⟨by norm_num, ?_, ?_, ?_⟩ <;>
    simp [createProduct, hle, hr, DB.empty] <;> decide

/-- C9, code bug.  The claim (with the spec, the `EmailField` declaration
and the sibling bulk mutation's `Email is required.` check) says a blank
email must be rejected.  `CreateCustomer.mutate` never checks that the email
is non-blank: with a valid name and no phone, a whitespace-only email
normalises to `""`, no error is recorded, and a customer with an empty email
is persisted. -/
theorem claim9_blank_email_accepted :
    pyStrip "   " = "" ∧
    (createCustomer DB.empty ⟨"Alice", "   ", none⟩).1.errors = [] ∧
    (createCustomer DB.empty ⟨"Alice", "   ", none⟩).1.customer =
      some ⟨1, "Alice", "", ""⟩ ∧
    (createCustomer DB.empty ⟨"Alice", "   ", none⟩).2.customers =
      [⟨1, "Alice", "", ""⟩] := by
  refine ⟨by decide, by decide, by decide, by decide⟩

/-- C4: email uniqueness is case-insensitive.  For any input whose email
(matching the stored form, i.e. with no surrounding whitespace) differs only
in letter case from the email of an existing customer, `CreateCustomer.mutate`
returns no customer, reports `Email already exists.`, and writes nothing. -/
theorem claim4_email_case_insensitive (db : DB) (input : CustomerInput)
    (c : Customer) (hc : c ∈ db.customers)
    (hcase : pyLower input.email = pyLower c.email)
    (htrim : pyStrip input.email = input.email) :
    (createCustomer db input).1.customer = none ∧
    "Email already exists." ∈ (createCustomer db input).1.errors ∧
    (createCustomer db input).2 = db := by
  have hmem : db.customers.any
      (fun c2 => pyLower c2.email == pyLower (pyStrip input.email)) = true := by
    refine List.any_eq_true.mpr ⟨c, hc, ?_⟩
    rw [htrim, hcase]
    exact beq_self_eq_true _
  simp [createCustomer, hmem, List.append_eq_nil]

/-- C4, witness: `"ALICE@X.com"` against the stored `"alice@x.com"`. -/
theorem claim4_witness :
    (⟨1, "Alice", "alice@x.com", ""⟩ : Customer) ∈ sampleDB.customers ∧
    pyLower "ALICE@X.com" = pyLower "alice@x.com" ∧
    ((createCustomer sampleDB ⟨"Bob", "ALICE@X.com", none⟩).1.customer = none ∧
      "Email already exists." ∈
        (createCustomer sampleDB ⟨"Bob", "ALICE@X.com", none⟩).1.errors ∧
      (createCustomer sampleDB ⟨"Bob", "ALICE@X.com", none⟩).2 = sampleDB) :=
  ⟨by decide, by decide,
    claim4_email_case_insensitive sampleDB ⟨"Bob", "ALICE@X.com", none⟩
      ⟨1, "Alice", "alice@x.com", ""⟩ (by decide) (by decide) (by decide)⟩

/-- C1: every `createOrder` validation check runs before short-circuiting,
any accumulated error yields a null order, the full error list and no write;
in particular a non-existent customer id together with a non-existent
product id produces both `Customer not found.` and the missing-product-id
error in one response, with no order created. -/
theorem claim1_error_accumulation (db : DB) (input : OrderInput)
    (cid pid : Int) (raw : String)
    (h1 : pyInt? input.customerId = some cid)
    (h2 : ∀ c ∈ db.customers, (c.id : Int) ≠ cid)
    (h3 : raw ∈ input.productIds)
    (h4 : pyInt? raw = some pid)
    (h5 : ∀ p ∈ db.products, (p.id : Int) ≠ pid) :
    (∀ (db2 : DB) (inp2 : OrderInput), (createOrder db2 inp2).1.errors ≠ [] →
        (createOrder db2 inp2).1.order = none ∧ (createOrder db2 inp2).2 = db2)
    ∧ "Customer not found." ∈ (createOrder db input).1.errors
    ∧ pid ∈ orderMissing db input
    ∧ ("Invalid product ID(s): " ++ String.intercalate ", "
        ((orderMissing db input).map toString)) ∈ (createOrder db input).1.errors
    ∧ (createOrder db input).1.order = none
    ∧ (createOrder db input).2 = db := by
  have hcust : orderCustomer? db input = none := by
    simp only [orderCustomer?, h1]
    exact List.find?_eq_none.mpr
      (fun c hcmem hp => h2 c hcmem (beq_iff_eq.mp hp))
  have hpid_parsed : pid ∈ (parseProductIds input.productIds).2 := by
    rw [parseProductIds_ids]
    exact List.mem_filterMap.mpr ⟨raw, h3, h4⟩
  have hdedup : pid ∈ orderDedupedIds input := by
    unfold orderDedupedIds
    exact mem_dedupFirst.mpr hpid_parsed
  have hany : (orderProducts db input).any (fun p => (p.id : Int) == pid) = false := by
    refine Bool.eq_false_iff.mpr (fun hT => ?_)
    obtain ⟨p, hpmem, hbeq⟩ := List.any_eq_true.mp hT
    have hpdb : p ∈ db.products := by
      by_cases hd : orderDedupedIds input = []
      · rw [orderProducts, if_pos hd] at hpmem
        exact absurd hpmem (List.not_mem_nil p)
      · rw [orderProducts, if_neg hd] at hpmem
        exact (List.mem_filter.mp hpmem).1
    exact h5 p hpdb (beq_iff_eq.mp hbeq)
  have hmiss : pid ∈ orderMissing db input := by
    unfold orderMissing
    rw [mem_pySorted]
    refine List.mem_filter.mpr ⟨hdedup, ?_⟩
    rw [hany]
    rfl
  have hmissne : orderMissing db input ≠ [] := List.ne_nil_of_mem hmiss
  have hcustmsg : "Customer not found." ∈ orderErrors db input := by
    simp only [orderErrors, h1, hcust, Option.isNone_none, if_pos rfl]
    simp [List.mem_append]
  have hmissmsg : ("Invalid product ID(s): " ++ String.intercalate ", "
      ((orderMissing db input).map toString)) ∈ orderErrors db input := by
    simp only [orderErrors]
    rw [if_neg hmissne]
    simp [List.mem_append]
  have hne : orderErrors db input ≠ [] := fun h0 => by
    rw [h0] at hcustmsg
    exact absurd hcustmsg (List.not_mem_nil _)
  have hfail := createOrder_failure db input hne
  refine ⟨fun db2 inp2 h => createOrder_errors_ne db2 inp2 h, ?_, hmiss, ?_, ?_, ?_⟩
  · rw [hfail]
    exact hcustmsg
  · rw [hfail]
    exact hmissmsg
  · rw [hfail]
  · rw [hfail]

/-- C1, witness: customer id 99 and product id 77 both absent from the
sample database. -/
theorem claim1_witness :
    pyInt? "99" = some 99 ∧
    (∀ c ∈ sampleDB.customers, (c.id : Int) ≠ 99) ∧
    "77" ∈ (⟨"99", ["77"]⟩ : OrderInput).productIds ∧
    pyInt? "77" = some 77 ∧
    (∀ p ∈ sampleDB.products, (p.id : Int) ≠ 77) ∧
    ("Customer not found." ∈ (createOrder sampleDB ⟨"99", ["77"]⟩).1.errors ∧
      (77 : Int) ∈ orderMissing sampleDB ⟨"99", ["77"]⟩ ∧
      ("Invalid product ID(s): " ++ String.intercalate ", "
        ((orderMissing sampleDB ⟨"99", ["77"]⟩).map toString)) ∈
          (createOrder sampleDB ⟨"99", ["77"]⟩).1.errors ∧
      (createOrder sampleDB ⟨"99", ["77"]⟩).1.order = none ∧
      (createOrder sampleDB ⟨"99", ["77"]⟩).2 = sampleDB) :=
  ⟨by decide, by decide, by decide, by decide, by decide, by
    have h := claim1_error_accumulation sampleDB ⟨"99", ["77"]⟩ 99 77 "77"
      (by decide) (by decide) (by decide) (by decide) (by decide)
    exact ⟨h.2.1, h.2.2.1, h.2.2.2.1, h.2.2.2.2.1, h.2.2.2.2.2⟩⟩

/-- C10: when the product-id list is non-empty but no id parses as an
integer, the error list is exactly the per-id parse errors followed by
`At least one product must be provided.` (plus whatever the customer checks
contribute, in source order), the order is null, and nothing is written. -/
theorem claim10_all_unparseable (db : DB) (input : OrderInput)
    (_hne : input.productIds ≠ [])
    (hall : ∀ raw ∈ input.productIds, pyInt? raw = none) :
    (createOrder db input).1.errors =
      (if (pyInt? input.customerId).isNone then ["Invalid customer ID."] else [])
      ++ input.productIds.map (fun raw => "Invalid product ID: " ++ raw)
      ++ ["At least one product must be provided."]
      ++ (match pyInt? input.customerId with
          | none => []
          | some _ =>
              if (orderCustomer? db input).isNone then ["Customer not found."] else [])
    ∧ (createOrder db input).1.order = none
    ∧ (createOrder db input).2 = db := by
  have hparse := parseProductIds_all_fail input.productIds hall
  have hded : orderDedupedIds input = [] := by
    unfold orderDedupedIds
    rw [hparse]
    rfl
  have hmiss : orderMissing db input = [] := by
    unfold orderMissing
    rw [hded]
    rfl
  have herr : orderErrors db input =
      (if (pyInt? input.customerId).isNone then ["Invalid customer ID."] else [])
      ++ input.productIds.map (fun raw => "Invalid product ID: " ++ raw)
      ++ ["At least one product must be provided."]
      ++ (match pyInt? input.customerId with
          | none => []
          | some _ =>
              if (orderCustomer? db input).isNone then ["Customer not found."] else []) := by
    simp [orderErrors, hparse, hded, hmiss]
  have hmem : "At least one product must be provided." ∈ orderErrors db input := by
    rw [herr]
    simp [List.mem_append]
  have hne2 : orderErrors db input ≠ [] := fun h0 => by
    rw [h0] at hmem
    exact absurd hmem (List.not_mem_nil _)
  have hfail := createOrder_failure db input hne2
  refine ⟨?_, ?_, ?_⟩
  · rw [hfail]
    exact herr
  · rw [hfail]
  · rw [hfail]

/-- C10, witness: product ids `["a", "b"]`, neither an integer. -/
theorem claim10_witness :
    (["a", "b"] : List String) ≠ [] ∧
    (createOrder sampleDB ⟨"1", ["a", "b"]⟩).1.errors =
      ["Invalid product ID: a", "Invalid product ID: b",
        "At least one product must be provided."] ∧
    (createOrder sampleDB ⟨"1", ["a", "b"]⟩).1.order = none ∧
    (createOrder sampleDB ⟨"1", ["a", "b"]⟩).2 = sampleDB := by
  have h := claim10_all_unparseable sampleDB ⟨"1", ["a", "b"]⟩ (by decide) (by decide)
  exact ⟨by decide, h.1.trans (by decide), h.2.1, h.2.2⟩

/-- C2: a successful `createOrder` de-duplicates the parsed product ids
keeping first-seen order (the `dedupFirst` equations), links the created
order to each distinct resolved product exactly once (`Nodup` plus the
membership equivalence with the parsed ids), and sets `total_amount` to the
half-up rounding of the sum of the linked products' current prices. -/
theorem claim2_success_links_and_total (db : DB) (input : OrderInput)
    (hnodup : (db.products.map Product.id).Nodup)
    (hsucc : (createOrder db input).1.errors = []) :
    ∃ o : Order,
      (createOrder db input).1.order = some o ∧
      (createOrder db input).2.orders = db.orders ++ [o] ∧
      o.productIds.Nodup ∧
      (∀ pid : Nat,
        pid ∈ o.productIds ↔ (pid : Int) ∈ (parseProductIds input.productIds).2) ∧
      o.totalAmount = roundHalfUp2 ((orderProducts db input).map Product.price).sum ∧
      (∀ (x : Int) (l : List Int),
        dedupFirst (x :: l) = x :: dedupFirst (l.filter (fun y => !(y == x)))) ∧
      (∀ l : List Int, (dedupFirst l).Sublist l ∧ (dedupFirst l).Nodup) := by
  by_cases he : orderErrors db input = []
  · have hatleast : orderDedupedIds input ≠ [] := by
      intro hd
      have hm : "At least one product must be provided." ∈ orderErrors db input := by
        simp [orderErrors, hd, List.mem_append]
      rw [he] at hm
      exact absurd hm (List.not_mem_nil _)
    have hmissnil : orderMissing db input = [] := by
      by_contra hm
      have hmem : ("Invalid product ID(s): " ++ String.intercalate ", "
          ((orderMissing db input).map toString)) ∈ orderErrors db input := by
        simp only [orderErrors]
        rw [if_neg hm]
        simp [List.mem_append]
      rw [he] at hmem
      exact absurd hmem (List.not_mem_nil _)
    have hprodeq : orderProducts db input =
        db.products.filter (fun p => (orderDedupedIds input).contains (p.id : Int)) := by
      rw [orderProducts, if_neg hatleast]
    refine ⟨⟨db.nextOrderId, (orderCustomer? db input).map (fun c => c.id),
        (orderProducts db input).map (fun p => p.id),
        roundHalfUp2 ((orderProducts db input).foldl (fun acc p => acc + p.price) 0)⟩,
      ?_, ?_, ?_, ?_, ?_, ?_, ?_⟩
    · simp [createOrder, he]
    · simp [createOrder, he]
    · rw [hprodeq]
      exact ((List.filter_sublist _).map _).nodup hnodup
    · intro pid
      constructor
      · intro hmem
        obtain ⟨p, hp, rfl⟩ := List.mem_map.mp hmem
        rw [hprodeq] at hp
        obtain ⟨hpdb, hcont⟩ := List.mem_filter.mp hp
        have hd : (p.id : Int) ∈ orderDedupedIds input := (contains_iff_mem _ _).mp hcont
        unfold orderDedupedIds at hd
        exact mem_dedupFirst.mp hd
      · intro hparsedmem
        have hd : (pid : Int) ∈ orderDedupedIds input := by
          unfold orderDedupedIds
          exact mem_dedupFirst.mpr hparsedmem
        have hfilt : (orderDedupedIds input).filter
            (fun i => !((orderProducts db input).any (fun p => (p.id : Int) == i)))
              = [] := by
          have hm := hmissnil
          unfold orderMissing at hm
          exact pySorted_eq_nil.mp hm
        have hnotf := List.filter_eq_nil_iff.mp hfilt _ hd
        have hany : (orderProducts db input).any
            (fun p => (p.id : Int) == pid) = true := by
          rcases Bool.eq_false_or_eq_true
              ((orderProducts db input).any (fun p => (p.id : Int) == pid)) with hb | hb
          · exact hb
          · exact absurd (by rw [hb]; rfl) hnotf
        obtain ⟨p, hpmem, hbeq⟩ := List.any_eq_true.mp hany
        have hpid : p.id = pid := by
          have hcast := beq_iff_eq.mp hbeq
          exact_mod_cast hcast
        exact List.mem_map.mpr ⟨p, hpmem, hpid⟩
    · exact congrArg roundHalfUp2 (foldl_price_sum _)
    · exact fun x l => dedupFirst_cons x l
    · exact fun l => ⟨dedupFirst_sublist l, dedupFirst_nodup l⟩
  · rw [createOrder_failure db input he] at hsucc
    exact absurd hsucc he

/-- C2, witness: product ids `["2", "2", "3"]` against the sample database
(products 2 and 3 priced 10.50 and 2.25). -/
theorem claim2_witness :
    (sampleDB.products.map Product.id).Nodup ∧
    (createOrder sampleDB ⟨"1", ["2", "2", "3"]⟩).1.errors = [] ∧
    (∃ o : Order,
      (createOrder sampleDB ⟨"1", ["2", "2", "3"]⟩).1.order = some o ∧
      (createOrder sampleDB ⟨"1", ["2", "2", "3"]⟩).2.orders =
        sampleDB.orders ++ [o] ∧
      o.productIds.Nodup ∧
      (∀ pid : Nat, pid ∈ o.productIds ↔
        (pid : Int) ∈ (parseProductIds ["2", "2", "3"]).2) ∧
      o.totalAmount = roundHalfUp2
        ((orderProducts sampleDB ⟨"1", ["2", "2", "3"]⟩).map Product.price).sum ∧
      (∀ (x : Int) (l : List Int),
        dedupFirst (x :: l) = x :: dedupFirst (l.filter (fun y => !(y == x)))) ∧
      (∀ l : List Int, (dedupFirst l).Sublist l ∧ (dedupFirst l).Nodup)) :=
  ⟨by decide, by decide,
    claim2_success_links_and_total sampleDB ⟨"1", ["2", "2", "3"]⟩
      (by decide) (by decide)⟩

/-- C3, counterexample.  The claim says every row whose normalised email
equals the email of some earlier row of the batch (and belongs to no
pre-existing customer) is flagged `Duplicate email within request.` and not
inserted.  But `seen_emails` records only rows that passed validation: row 1
here shares the email yet fails phone validation, so row 2 is inserted with
no duplicate flag — the result holds exactly one error, for row 1. -/
theorem claim3_counterexample :
    normEmail ⟨"B", "dup@x.com", none⟩ = normEmail ⟨"A", "dup@x.com", some "badphone"⟩ ∧
    existingEmails DB.empty = [] ∧
    bulkCreateCustomers DB.empty
        [⟨"A", "dup@x.com", some "badphone"⟩, ⟨"B", "dup@x.com", none⟩] =
      .ok (⟨[⟨1, "B", "dup@x.com", ""⟩], ["Entry 1: " ++ phoneFormatMsg]⟩,
        ⟨[⟨1, "B", "dup@x.com", ""⟩], [], [], 2, 1, 1⟩) := by
  refine ⟨by decide, by decide, ?_⟩
  unfold bulkCreateCustomers
  rw [if_neg (by decide)]
  exact congrArg Except.ok (by decide)

/-- C3 (amended): in `bulkCreateCustomers`, a row whose normalised email
belongs to no pre-existing customer but equals the email of an earlier row
of the same batch that itself passed validation (the running `seen_emails`
set) is flagged `Duplicate email within request.` — never
`Email already exists.` — contributes exactly one error labelled with its
1-based index, and is not inserted; all other rows are processed as if the
duplicate row were absent from the insertions. -/
theorem claim3_duplicate_within_request (db : DB) (l1 l2 : List CustomerInput)
    (row : CustomerInput)
    (hex : normEmail row ∉ existingEmails db)
    (hseen : normEmail row ∈ (processRows (existingEmails db) [] 0 l1).2.2) :
    "Duplicate email within request." ∈
        rowErrors (existingEmails db) (processRows (existingEmails db) [] 0 l1).2.2 row ∧
    "Email already exists." ∉
        rowErrors (existingEmails db) (processRows (existingEmails db) [] 0 l1).2.2 row ∧
    processRows (existingEmails db) [] 0 (l1 ++ row :: l2) =
      ((processRows (existingEmails db) [] 0 l1).1
          ++ ("Entry " ++ toString (l1.length + 1) ++ ": "
              ++ String.intercalate "; "
                (rowErrors (existingEmails db)
                  (processRows (existingEmails db) [] 0 l1).2.2 row))
            :: (processRows (existingEmails db)
                (processRows (existingEmails db) [] 0 l1).2.2 (l1.length + 1) l2).1,
        (processRows (existingEmails db) [] 0 l1).2.1
          ++ (processRows (existingEmails db)
              (processRows (existingEmails db) [] 0 l1).2.2 (l1.length + 1) l2).2.1,
        (processRows (existingEmails db)
            (processRows (existingEmails db) [] 0 l1).2.2 (l1.length + 1) l2).2.2) ∧
    (∃ res db2, bulkCreateCustomers db (l1 ++ row :: l2) = .ok (res, db2) ∧
      res.errors =
        (processRows (existingEmails db) [] 0 l1).1
          ++ ("Entry " ++ toString (l1.length + 1) ++ ": "
              ++ String.intercalate "; "
                (rowErrors (existingEmails db)
                  (processRows (existingEmails db) [] 0 l1).2.2 row))
            :: (processRows (existingEmails db)
                (processRows (existingEmails db) [] 0 l1).2.2 (l1.length + 1) l2).1 ∧
      res.customers = assignIds db.nextCustomerId
        ((processRows (existingEmails db) [] 0 l1).2.1
          ++ (processRows (existingEmails db)
              (processRows (existingEmails db) [] 0 l1).2.2 (l1.length + 1) l2).2.1)) := by
  have hnb : normEmail row ≠ "" :=
    processRows_seen_nonblank (existingEmails db) l1 [] 0 (by simp) _ hseen
  have hc1 : (existingEmails db).contains (normEmail row) = false :=
    Bool.eq_false_iff.mpr (fun hc => hex ((contains_iff_mem _ _).mp hc))
  have hc2 : ((processRows (existingEmails db) [] 0 l1).2.2).contains (normEmail row)
      = true := (contains_iff_mem _ _).mpr hseen
  have hrerr : rowErrors (existingEmails db)
      (processRows (existingEmails db) [] 0 l1).2.2 row =
      (if normName row = "" then ["Name is required."] else [])
      ++ ["Duplicate email within request."]
      ++ (if validatePhone (some (normPhone row)) then [] else [phoneFormatMsg]) := by
    simp [rowErrors, hnb, hc1, hc2, hex, hseen]
  have hdupmem : "Duplicate email within request." ∈
      rowErrors (existingEmails db) (processRows (existingEmails db) [] 0 l1).2.2 row := by
    rw [hrerr]
    simp [List.mem_append]
  have hnexists : "Email already exists." ∉
      rowErrors (existingEmails db) (processRows (existingEmails db) [] 0 l1).2.2 row := by
    rw [hrerr]
    intro hmem
    rcases List.mem_append.mp hmem with hmem1 | hC
    · rcases List.mem_append.mp hmem1 with hA | hB
      · by_cases hn : normName row = ""
        · rw [if_pos hn] at hA
          exact absurd (List.mem_singleton.mp hA) (by decide)
        · rw [if_neg hn] at hA
          exact absurd hA (List.not_mem_nil _)
      · exact absurd (List.mem_singleton.mp hB) (by decide)
    · by_cases hv : validatePhone (some (normPhone row)) = true
      · rw [if_pos hv] at hC
        exact absurd hC (List.not_mem_nil _)
      · rw [if_neg hv] at hC
        exact absurd (List.mem_singleton.mp hC) (by decide)
  have hrne : rowErrors (existingEmails db)
      (processRows (existingEmails db) [] 0 l1).2.2 row ≠ [] :=
    List.ne_nil_of_mem hdupmem
  have hsplit : processRows (existingEmails db) [] 0 (l1 ++ row :: l2) =
      ((processRows (existingEmails db) [] 0 l1).1
          ++ ("Entry " ++ toString (l1.length + 1) ++ ": "
              ++ String.intercalate "; "
                (rowErrors (existingEmails db)
                  (processRows (existingEmails db) [] 0 l1).2.2 row))
            :: (processRows (existingEmails db)
                (processRows (existingEmails db) [] 0 l1).2.2 (l1.length + 1) l2).1,
        (processRows (existingEmails db) [] 0 l1).2.1
          ++ (processRows (existingEmails db)
              (processRows (existingEmails db) [] 0 l1).2.2 (l1.length + 1) l2).2.1,
        (processRows (existingEmails db)
            (processRows (existingEmails db) [] 0 l1).2.2 (l1.length + 1) l2).2.2) := by
    rw [processRows_append (existingEmails db) [] 0 l1 (row :: l2)]
    simp [processRows, hrne, Nat.zero_add]
  have hne0 : l1 ++ row :: l2 ≠ [] := by simp
  refine ⟨hdupmem, hnexists, hsplit, ?_⟩
  refine ⟨⟨assignIds db.nextCustomerId
      ((processRows (existingEmails db) [] 0 l1).2.1
        ++ (processRows (existingEmails db)
            (processRows (existingEmails db) [] 0 l1).2.2 (l1.length + 1) l2).2.1),
    (processRows (existingEmails db) [] 0 l1).1
      ++ ("Entry " ++ toString (l1.length + 1) ++ ": "
          ++ String.intercalate "; "
            (rowErrors (existingEmails db)
              (processRows (existingEmails db) [] 0 l1).2.2 row))
        :: (processRows (existingEmails db)
            (processRows (existingEmails db) [] 0 l1).2.2 (l1.length + 1) l2).1⟩,
    { db with
        customers := db.customers ++ assignIds db.nextCustomerId
          ((processRows (existingEmails db) [] 0 l1).2.1
            ++ (processRows (existingEmails db)
                (processRows (existingEmails db) [] 0 l1).2.2 (l1.length + 1) l2).2.1)
        nextCustomerId := db.nextCustomerId + (assignIds db.nextCustomerId
          ((processRows (existingEmails db) [] 0 l1).2.1
            ++ (processRows (existingEmails db)
                (processRows (existingEmails db) [] 0 l1).2.2
                  (l1.length + 1) l2).2.1)).length },
    ?_, rfl, rfl⟩
  unfold bulkCreateCustomers
  rw [if_neg hne0, hsplit]

/-- C3, witness: a valid first row establishes `seen_emails`, so a second
row with the same email is flagged as a within-request duplicate. -/
theorem claim3_witness :
    normEmail ⟨"B", "dup@x.com", none⟩ ∉ existingEmails DB.empty ∧
    normEmail ⟨"B", "dup@x.com", none⟩ ∈
      (processRows (existingEmails DB.empty) [] 0 [⟨"A", "dup@x.com", none⟩]).2.2 ∧
    "Duplicate email within request." ∈
      rowErrors (existingEmails DB.empty)
        (processRows (existingEmails DB.empty) [] 0 [⟨"A", "dup@x.com", none⟩]).2.2
        ⟨"B", "dup@x.com", none⟩ :=
  ⟨by decide, by decide,
    (claim3_duplicate_within_request DB.empty [⟨"A", "dup@x.com", none⟩] []
      ⟨"B", "dup@x.com", none⟩ (by decide) (by decide)).1⟩

/-- C6: over a non-empty batch, `bulkCreateCustomers` succeeds; the loop
produces exactly one outcome per row, so that there is exactly one
index-labelled error string per failing row and one inserted customer per
passing row (in order, with names, emails and phones preserved), the counts
add up to the batch size, and the accepted rows are appended to the table in
a single insertion. -/
theorem claim6_per_row_outcomes (db : DB) (input : List CustomerInput)
    (hne : input ≠ []) :
    ∃ res db2, bulkCreateCustomers db input = .ok (res, db2) ∧
      db2.customers = db.customers ++ res.customers ∧
      res.errors = (rowTrace (existingEmails db) [] 0 input).filterMap outcomeError ∧
      res.customers.map (fun c => (c.name, c.email, c.phone)) =
        ((rowTrace (existingEmails db) [] 0 input).filterMap outcomePending).map
          (fun p => (p.name, p.email, p.phone)) ∧
      (rowTrace (existingEmails db) [] 0 input).length = input.length ∧
      res.errors.length + res.customers.length = input.length ∧
      (∀ (i : Nat) (r : CustomerInput), input[i]? = some r →
        ∃ seenI : List String,
          (rowTrace (existingEmails db) [] 0 input)[i]? =
            some (rowOutcome (existingEmails db) seenI i r)) := by
  refine ⟨⟨assignIds db.nextCustomerId (processRows (existingEmails db) [] 0 input).2.1,
      (processRows (existingEmails db) [] 0 input).1⟩,
    { db with
        customers := db.customers ++ assignIds db.nextCustomerId
          (processRows (existingEmails db) [] 0 input).2.1
        nextCustomerId := db.nextCustomerId + (assignIds db.nextCustomerId
          (processRows (existingEmails db) [] 0 input).2.1).length },
    ?_, rfl, ?_, ?_, ?_, ?_, ?_⟩
  · unfold bulkCreateCustomers
    rw [if_neg hne]
  · exact processRows_errors_eq_trace (existingEmails db) [] 0 input
  · rw [assignIds_proj, processRows_pending_eq_trace]
  · exact rowTrace_length (existingEmails db) [] 0 input
  · show (processRows (existingEmails db) [] 0 input).1.length
        + (assignIds db.nextCustomerId (processRows (existingEmails db) [] 0 input).2.1).length
        = input.length
    rw [assignIds_length, processRows_errors_eq_trace (existingEmails db) [] 0 input,
      processRows_pending_eq_trace (existingEmails db) [] 0 input,
      filterMap_outcome_lengths, rowTrace_length]
  · intro i r hi
    have h := rowTrace_getElem (existingEmails db) input [] 0 i r hi
    simpa using h

/-- C6, witness: a batch with one invalid row (blank name) and one valid
row. -/
theorem claim6_witness :
    ([⟨"", "x@y.com", none⟩, ⟨"Bob", "b@y.com", none⟩] : List CustomerInput) ≠ [] ∧
    (∃ res db2,
      bulkCreateCustomers DB.empty
        [⟨"", "x@y.com", none⟩, ⟨"Bob", "b@y.com", none⟩] = .ok (res, db2) ∧
      db2.customers = DB.empty.customers ++ res.customers ∧
      res.errors = (rowTrace (existingEmails DB.empty) [] 0
        [⟨"", "x@y.com", none⟩, ⟨"Bob", "b@y.com", none⟩]).filterMap outcomeError ∧
      res.customers.map (fun c => (c.name, c.email, c.phone)) =
        ((rowTrace (existingEmails DB.empty) [] 0
          [⟨"", "x@y.com", none⟩, ⟨"Bob", "b@y.com", none⟩]).filterMap
            outcomePending).map (fun p => (p.name, p.email, p.phone)) ∧
      (rowTrace (existingEmails DB.empty) [] 0
        [⟨"", "x@y.com", none⟩, ⟨"Bob", "b@y.com", none⟩]).length = 2 ∧
      res.errors.length + res.customers.length = 2 ∧
      (∀ (i : Nat) (r : CustomerInput),
        ([⟨"", "x@y.com", none⟩, ⟨"Bob", "b@y.com", none⟩] : List CustomerInput)[i]? =
          some r →
        ∃ seenI : List String,
          (rowTrace (existingEmails DB.empty) [] 0
            [⟨"", "x@y.com", none⟩, ⟨"Bob", "b@y.com", none⟩])[i]? =
              some (rowOutcome (existingEmails DB.empty) seenI i r))) :=
  ⟨by decide,
    claim6_per_row_outcomes DB.empty
      [⟨"", "x@y.com", none⟩, ⟨"Bob", "b@y.com", none⟩] (by decide)⟩

/-- C8: in `_filter_queryset`, a lookup appears in the payload exactly when
its mapped attribute is present (non-`None`) on the filter input — absent
fields are omitted, not matched against null — and when the filter-set
rejects the payload the query raises a single error whose message joins all
filter-set field errors with `"; "`. -/
theorem claim8_filter_payload_and_errors {α : Type} (fs : FilterSetCls α)
    (queryset : List α) (fi : List (String × Option String))
    (mapping : List (String × String)) :
    (∀ (lookup v : String),
      (lookup, v) ∈ buildPayload fi mapping ↔
        ∃ attr, (attr, lookup) ∈ mapping ∧ attrValue fi attr = some v) ∧
    (fs.isValid (buildPayload fi mapping) = false →
      String.intercalate "; " (filtersetMessages fs (buildPayload fi mapping)) ≠ "" →
      filterQueryset fs queryset (some fi) mapping =
        .error (String.intercalate "; "
          (filtersetMessages fs (buildPayload fi mapping)))) := by
  constructor
  · intro lookup v
    rw [buildPayload, List.mem_filterMap]
    constructor
    · rintro ⟨⟨a, lk⟩, hal, hsome⟩
      cases hv : attrValue fi a with
      | none =>
          rw [hv] at hsome
          exact absurd hsome (by simp)
      | some v0 =>
          rw [hv] at hsome
          have hpair : lk = lookup ∧ v0 = v := by simpa using hsome
          obtain ⟨rfl, rfl⟩ := hpair
          exact ⟨a, hal, hv⟩
    · rintro ⟨attr, hattr, hval⟩
      refine ⟨(attr, lookup), hattr, ?_⟩
      rw [hval]
  · intro hvalid hnempty
    simp only [filterQueryset]
    rw [if_neg (by simp [hvalid]), if_neg hnempty]

/-- C8, witness: the spec-modelled product filter-set rejects a malformed
`price_gte` value, and the query surfaces the single joined message; the
absent `price_lte` field is omitted from the payload. -/
theorem claim8_witness :
    specProductFilterSet.isValid
      (buildPayload [("price_gte", some "abc"), ("price_lte", none)]
        productFilterMapping) = false ∧
    buildPayload [("price_gte", some "abc"), ("price_lte", none)]
        productFilterMapping = [("price_gte", "abc")] ∧
    filterQueryset specProductFilterSet ([] : List ℚ)
      (some [("price_gte", some "abc"), ("price_lte", none)]) productFilterMapping =
      .error "price_gte: Enter a number." := by
  refine ⟨by decide, by decide, ?_⟩
  have h := (claim8_filter_payload_and_errors specProductFilterSet ([] : List ℚ)
      [("price_gte", some "abc"), ("price_lte", none)] productFilterMapping).2
      (by decide) (by decide)
  exact h.trans (congrArg Except.error (by decide))

end CRM
